import Mathlib

/-!
Verification development for the Fish-Eco-Sim simulation engine.

Shallow embedding of the simulation core (`src/config.py`, `src/world/food.py`,
`src/agent/traits.py`, `src/agent/movement.py`, `src/agent/neural_net.py`,
`src/agent/behavior.py`, `src/agent/base.py`, `src/world/sim.py`,
`src/world/__init__.py`).  Python ints are modelled as `ℤ`/`ℕ`, Python floats
that the claims treat exactly (energies, drains) as `ℚ`, and the neural-network
arithmetic (which uses `math.exp` via numpy) over `ℝ`.  In-place mutation is
modelled by explicit state passing; `random.random()` / `random.randint` draws
are passed in as explicit oracle arguments; Python exceptions are modelled with
an explicit error flag / `Except`.
-/

namespace FishEcoSim

/-! ## config.py constants (simulation-relevant) -/

def GRID_COLS : ℤ := 192
def GRID_ROWS : ℤ := 108
def INITIAL_AGENT_COUNT : ℕ := 5
def INITIAL_FOOD_COUNT : ℕ := 4000
def FOOD_LIFESPAN_TICKS : ℕ := 2000000
def FOOD_SPAWN_INTERVAL_TICKS : ℕ := 50
def FOOD_SPAWN_AMOUNT : ℕ := 5
def FOOD_ENERGY_VALUE : ℚ := 20
def BASE_MOVE_INTERVAL_TICKS : ℕ := 3
def BASE_ENERGY_DRAIN_PER_MOVE : ℚ := 1
def BASE_ENERGY_DRAIN_PER_TICK : ℚ := 0.05
def BASE_MAX_AGE_TICKS : ℕ := 1000
def BASE_VISION_RANGE : ℤ := 5
def BASE_MAX_ENERGY : ℚ := 1000

/-! ## world/food.py -/

/-- `FoodPellet` from `world/food.py`: position, lifespan, age, energy value. -/
structure FoodPellet where
  x : ℤ
  y : ℤ
  lifespan : ℕ
  age : ℕ
  energy_value : ℚ
deriving DecidableEq, Repr

/-- `FoodPellet.__init__(x, y, lifespan, energy_value)`: `age` starts at 0. -/
def FoodPellet.init (x y : ℤ) (lifespan : ℕ) (energy_value : ℚ) : FoodPellet :=
  { x := x, y := y, lifespan := lifespan, age := 0, energy_value := energy_value }

/-- `FoodPellet.update()`: `self.age += 1`. -/
def FoodPellet.update (p : FoodPellet) : FoodPellet :=
  { p with age := p.age + 1 }

/-- `FoodPellet.is_expired(current_tick)`: `self.age >= self.lifespan`
(the `current_tick` parameter is ignored by the source). -/
def FoodPellet.is_expired (p : FoodPellet) : Bool :=
  p.lifespan ≤ p.age

/-! ## agent/neural_net.py

The constructor fixes the weight-matrix shapes from the three size arguments
(`np.random.randn(input_size, hidden_size)` etc.), so the matrices are
modelled as functions over `Fin` of those sizes.  Weight values are the random
draws, kept abstract here. -/

/-- `NeuralNetwork` from `agent/neural_net.py`: sizes plus weight/bias arrays
whose shapes are fixed by the constructor. -/
structure NeuralNetwork where
  input_size : ℕ
  hidden_size : ℕ
  output_size : ℕ
  weights_input_hidden : Fin input_size → Fin hidden_size → ℝ
  bias_hidden : Fin hidden_size → ℝ
  weights_hidden_output : Fin hidden_size → Fin output_size → ℝ
  bias_output : Fin output_size → ℝ

/-- `NeuralNetwork._sigmoid(x) = 1 / (1 + np.exp(-x))`. -/
noncomputable def sigmoid (x : ℝ) : ℝ := 1 / (1 + Real.exp (-x))

/-- `NeuralNetwork.forward(input_data)`: raises `ValueError` when the input
vector length differs from `input_size` (after `np.atleast_2d`, a length-`n`
vector has shape `(1, n)`); otherwise returns the output row
`sigmoid(sigmoid(input · W_ih + b_h) · W_ho + b_o)` of length `output_size`.
The list access in the dot product uses `getD _ 0`; the default is never
taken because the length has just been checked. -/
noncomputable def NeuralNetwork.forward (net : NeuralNetwork) (input_data : List ℝ) :
    Except String (List ℝ) :=
  if input_data.length = net.input_size then
    .ok (List.ofFn fun k : Fin net.output_size =>
      sigmoid ((∑ j, sigmoid ((∑ i, input_data.getD i.val 0 *
        net.weights_input_hidden i j) + net.bias_hidden j) *
          net.weights_hidden_output j k) + net.bias_output k))
  else
    .error "Input data shape mismatch with input size"

/-! ## agent/traits.py -/

/-- `AgentTraits` from `agent/traits.py`. -/
structure AgentTraits where
  max_energy : ℚ
  energy : ℚ
  move_interval_ticks : ℕ
  max_age : ℕ
  vision_range : ℤ
  energy_drain_per_move : ℚ
  energy_drain_per_tick : ℚ
  age : ℕ
deriving DecidableEq, Repr

/-- `AgentTraits.__init__`: defaults from `config.py`; `energy` is first set to
`max_energy / 2` and then immediately overwritten with `50.0`. -/
def AgentTraits.init : AgentTraits :=
  { max_energy := BASE_MAX_ENERGY
    energy := 50
    move_interval_ticks := BASE_MOVE_INTERVAL_TICKS
    max_age := BASE_MAX_AGE_TICKS
    vision_range := BASE_VISION_RANGE
    energy_drain_per_move := BASE_ENERGY_DRAIN_PER_MOVE
    energy_drain_per_tick := BASE_ENERGY_DRAIN_PER_TICK
    age := 0 }

/-! ## agent/base.py : the Agent state

`Agent.__init__` sets `x`, `y`, `direction`, `traits`, `tick_counter`,
`alive`, `target` — and nothing else.  The functions in `agent/behavior.py`
additionally read `agent.network` and `agent.current_behavior_state`;
those attributes are never initialised by `Agent.__init__` (see the C2
analysis below), but they are part of the agent record the behavior module
operates on, so the embedded state carries them. -/

/-- `Agent` state: fields set by `Agent.__init__` plus the `network` /
`current_behavior_state` attributes that `agent/behavior.py` expects. -/
structure Agent where
  x : ℤ
  y : ℤ
  direction : String
  traits : AgentTraits
  tick_counter : ℕ
  alive : Bool
  target : Option FoodPellet
  current_behavior_state : String
  network : NeuralNetwork

/-! ## agent/movement.py -/

/-- `DIRECTIONS.get(direction, (0, 0))` from `agent/movement.py`:
N = (0,-1), S = (0,1), E = (1,0), W = (-1,0), unknown keys map to (0,0). -/
def get_direction_delta (direction : String) : ℤ × ℤ :=
  if direction = "N" then (0, -1)
  else if direction = "S" then (0, 1)
  else if direction = "E" then (1, 0)
  else if direction = "W" then (-1, 0)
  else (0, 0)

/-- `move_agent(agent)` from `agent/movement.py`: horizontal result is
`(x + dx) % GRID_COLS`, vertical result is `y + dy` only when it lies in
`[0, GRID_ROWS)`.  The trailing `random.random() < 0.1` redirect (taken only
when `agent.target is None`) is modelled by the `redirect` oracle argument:
`none` means the 10% draw failed, `some d` means it succeeded and
`get_random_direction()` returned `d`.  The redirect touches only
`direction`, never the position. -/
def move_agent (agent : Agent) (redirect : Option String) : Agent :=
  let dxdy := get_direction_delta agent.direction
  let new_x := agent.x + dxdy.1
  let new_y := agent.y + dxdy.2
  let moved := { agent with
    x := new_x % GRID_COLS
    y := if 0 ≤ new_y ∧ new_y < GRID_ROWS then new_y else agent.y }
  match agent.target, redirect with
  | none, some d => { moved with direction := d }
  | _, _ => moved

/-! ## agent/behavior.py -/

/-- `AgentState` string constants from `agent/behavior.py` (the two
implemented states). -/
def AgentState.WANDERING : String := "wandering"

/-- The `seeking_food` state tag from `agent/behavior.py`. -/
def AgentState.SEEKING_FOOD : String := "seeking_food"

/-- Wrap-aware horizontal delta used by `find_nearest_food` and
`move_towards_target`: `if dx > GRID_COLS // 2: dx -= GRID_COLS
elif dx < -GRID_COLS // 2: dx += GRID_COLS`. -/
def wrap_dx (dx : ℤ) : ℤ :=
  if dx > GRID_COLS / 2 then dx - GRID_COLS
  else if dx < -GRID_COLS / 2 then dx + GRID_COLS
  else dx

/-- Wrap-aware squared distance from an agent position to a pellet, exactly
as computed inside `find_nearest_food`: `dx` wrap-adjusted, `dy` raw,
result `dx**2 + dy**2`. -/
def dist_sq (ax ay : ℤ) (p : FoodPellet) : ℤ :=
  (wrap_dx (p.x - ax)) ^ 2 + (p.y - ay) ^ 2

/-- Edibility-and-range test applied to each pellet by the
`find_nearest_food` loop body (the Python also guards `pellet is None` and
`hasattr(pellet, 'energy_value')`, which are vacuous in the typed model). -/
def pellet_eligible (agent : Agent) (p : FoodPellet) : Prop :=
  0 < p.energy_value ∧ dist_sq agent.x agent.y p ≤ agent.traits.vision_range ^ 2

instance (agent : Agent) (p : FoodPellet) : Decidable (pellet_eligible agent p) := by
  unfold pellet_eligible; infer_instance

/-- The `dist_sq < min_dist_sq` test of the `find_nearest_food` loop: always
true against the initial `min_dist_sq = float('inf')` (modelled as `none`),
a strict comparison against the running best otherwise. -/
def improves_best (dsq : ℤ) : Option (FoodPellet × ℤ) → Bool
  | none => true
  | some b => decide (dsq < b.2)

/-- Loop of `find_nearest_food`: running best pellet with its squared
distance (`None` plays the role of the initial `min_dist_sq = inf`).
A pellet is taken iff `energy_value > 0`, `dist_sq <= vision_range**2`
and `dist_sq < min_dist_sq` (strict improvement keeps the first of a tie). -/
def find_nearest_food_loop (agent : Agent) :
    List FoodPellet → Option (FoodPellet × ℤ) → Option (FoodPellet × ℤ)
  | [], best => best
  | p :: rest, best =>
    if p.energy_value ≤ 0 then
      find_nearest_food_loop agent rest best
    else
      if dist_sq agent.x agent.y p ≤ agent.traits.vision_range ^ 2 ∧
          improves_best (dist_sq agent.x agent.y p) best = true then
        find_nearest_food_loop agent rest (some (p, dist_sq agent.x agent.y p))
      else
        find_nearest_food_loop agent rest best

/-- `find_nearest_food(agent, food_list)` from `agent/behavior.py`. -/
def find_nearest_food (agent : Agent) (food_list : List FoodPellet) : Option FoodPellet :=
  (find_nearest_food_loop agent food_list none).map Prod.fst

/-- `get_food_sensing_data_vector(agent, world)`: `1.0` iff
`find_nearest_food(agent, world.food)` is not `None`, else `0.0`. -/
def get_food_sensing_data_vector (agent : Agent) (food : List FoodPellet) : ℝ :=
  if (find_nearest_food agent food).isSome then 1 else 0

/-- `get_observation(agent, world)`:
`[energy / max_energy if max_energy > 0 else 0.0, sees_food_flag]`. -/
noncomputable def get_observation (agent : Agent) (food : List FoodPellet) : List ℝ :=
  let normalized_energy : ℚ :=
    if 0 < agent.traits.max_energy then agent.traits.energy / agent.traits.max_energy else 0
  [(normalized_energy : ℝ), get_food_sensing_data_vector agent food]

/-- Scalar decision read `network_output[0, 0]` of `get_next_state`: the
first entry of the forward pass's output row (`IndexError` when
`output_size = 0`); errors from `forward` propagate. -/
noncomputable def decision_value (agent : Agent) (food : List FoodPellet) :
    Except String ℝ :=
  match agent.network.forward (get_observation agent food) with
  | .error e => .error e
  | .ok network_output =>
    match network_output.head? with
    | some v => .ok v
    | none => .error "IndexError"

open Classical in
/-- `get_next_state(agent, world)` from `agent/behavior.py`: feeds the
observation through `agent.network.forward`, reads `network_output[0, 0]`
(`decision_value`), recomputes food visibility, and then: if the decision
value exceeds `0.5` and food is visible, the next state is `SEEKING_FOOD`
and `agent.target` is unconditionally reassigned to
`find_nearest_food(agent, world.food)`; otherwise the next state is
`WANDERING` and `agent.target` is cleared only when the current state is not
already `WANDERING`.  Errors raised on the way propagate.  Returns the
mutated agent together with the returned next state. -/
noncomputable def get_next_state (agent : Agent) (food : List FoodPellet) :
    Except String (Agent × String) :=
  match decision_value agent food with
  | .error e => .error e
  | .ok network_decision_value =>
    if network_decision_value > 0.5 ∧ (find_nearest_food agent food).isSome = true then
      .ok ({ agent with target := find_nearest_food agent food }, AgentState.SEEKING_FOOD)
    else
      if agent.current_behavior_state ≠ AgentState.WANDERING then
        .ok ({ agent with target := none }, AgentState.WANDERING)
      else
        .ok (agent, AgentState.WANDERING)

/-! ## agent/base.py : eat -/

/-- `Agent.eat(food)` from `agent/base.py`: when `food.energy_value > 0`,
add it to `traits.energy` (the `min(..., max_energy)` cap in the source is
commented out — no clamping happens), zero the pellet's `energy_value`, and
clear `target` when it was this pellet.  Python compares `self.target == food`
by object identity (no `__eq__` on `FoodPellet`); in the value model the
target holds the pellet value it was assigned, so the comparison is against
the pre-mutation pellet value.  Returns the mutated agent and pellet. -/
def Agent.eat (agent : Agent) (food : FoodPellet) : Agent × FoodPellet :=
  if 0 < food.energy_value then
    let traits' := { agent.traits with energy := agent.traits.energy + food.energy_value }
    let food' := { food with energy_value := 0 }
    let agent' := { agent with traits := traits' }
    if agent.target = some food then
      ({ agent' with target := none }, food')
    else
      (agent', food')
  else
    (agent, food)

/-! ## world/sim.py -/

/-- `SimulationState` from `world/sim.py`. -/
structure SimulationState where
  tick_count : ℕ
  paused : Bool
  pending_ticks : ℕ
deriving DecidableEq, Repr

/-- `SimulationState.__init__`: tick 0, not paused, no pending ticks. -/
def SimulationState.init : SimulationState :=
  { tick_count := 0, paused := false, pending_ticks := 0 }

/-- `SimulationState.is_running()`: `not self.paused or self.pending_ticks > 0`. -/
def SimulationState.is_running (s : SimulationState) : Bool :=
  !s.paused || decide (0 < s.pending_ticks)

/-- `SimulationState.increment_tick()`: `tick_count += 1`; `pending_ticks -= 1`
when positive. -/
def SimulationState.increment_tick (s : SimulationState) : SimulationState :=
  { s with
    tick_count := s.tick_count + 1
    pending_ticks := if 0 < s.pending_ticks then s.pending_ticks - 1 else s.pending_ticks }

/-- `SimulationState.toggle_pause()`: flip `paused`; when the new value is
paused, clear `pending_ticks`. -/
def SimulationState.toggle_pause (s : SimulationState) : SimulationState :=
  let s' := { s with paused := !s.paused }
  if s'.paused then { s' with pending_ticks := 0 } else s'

/-- `SimulationState.reset()`. -/
def SimulationState.reset (_ : SimulationState) : SimulationState :=
  SimulationState.init

/-- `SimulationState.step_once()`: `pending_ticks += 1` when paused. -/
def SimulationState.step_once (s : SimulationState) : SimulationState :=
  if s.paused then { s with pending_ticks := s.pending_ticks + 1 } else s

/-- `SimulationState.step_many(n)`: `pending_ticks += n` when paused and `n > 0`. -/
def SimulationState.step_many (s : SimulationState) (n : ℕ) : SimulationState :=
  if s.paused ∧ 0 < n then { s with pending_ticks := s.pending_ticks + n } else s

/-- `SimulationState.finish_step()`: `pass`. -/
def SimulationState.finish_step (s : SimulationState) : SimulationState := s

/-! ## agent/base.py : Agent.update

`Agent.update(self, world)` guards on `alive`, ages the agent, applies
old-age death, and then executes `behavior.decide_next_action(self, world)`.
The module `agent.behavior` defines no attribute `decide_next_action`
(its top-level names are listed in `behavior_module_attrs` below), so that
attribute lookup raises `AttributeError` on every tick that reaches it and
everything after line 245 of `agent/base.py` is unreachable.  The embedding
returns the mutated agent together with a flag that is `true` exactly when
the call raises. -/

/-- Top-level attribute surface of the module `agent/behavior.py`: its
imports (`random`, `math`, `np`, the four `config` constants, `move_agent`,
`get_random_direction`) and its own definitions (`AgentState`,
`find_nearest_food`, `get_food_sensing_data_vector`, `get_observation`,
`get_next_state`, `execute_current_state`, `move_towards_target`).
An attribute access `behavior.<name>` succeeds iff `<name>` is in this list. -/
def behavior_module_attrs : List String :=
  ["random", "math", "np",
   "GRID_COLS", "GRID_ROWS", "BASE_ENERGY_DRAIN_PER_MOVE",
   "BASE_ENERGY_DRAIN_PER_TICK", "BASE_MAX_ENERGY",
   "move_agent", "get_random_direction",
   "AgentState", "find_nearest_food", "get_food_sensing_data_vector",
   "get_observation", "get_next_state", "execute_current_state",
   "move_towards_target"]

/-- `Agent.update(world)` from `agent/base.py`: dead agents no-op; `age += 1`;
old-age death when `age >= max_age`; otherwise the next statement,
`behavior.decide_next_action(self, world)`, raises `AttributeError`
(second component `true`) because `agent/behavior.py` defines no
`decide_next_action` — the movement/energy code below it never runs.
The `world` argument is only ever consumed by that failing call, so it is
not a parameter of the embedding. -/
def Agent.update (agent : Agent) : Agent × Bool :=
  if agent.alive = false then (agent, false)
  else
    let agent' := { agent with traits := { agent.traits with age := agent.traits.age + 1 } }
    if agent'.traits.max_age ≤ agent'.traits.age then
      ({ agent' with alive := false }, false)
    else
      (agent', true)

/-! ## world/__init__.py : SimulationWorld -/

/-- World state from `world/__init__.py`: simulation clock, agent and food
lists, the selected agent and the food-spawn timer.  `selected_agent` is a
Python object reference into the agents list; it is modelled as the index of
that agent in `agents`. -/
structure SimulationWorld where
  state : SimulationState
  agents : List Agent
  food : List FoodPellet
  selected_agent : Option ℕ
  food_spawn_timer : ℕ

/-- The agent loop of step 1 of `SimulationWorld.update`: `for agent in
self.agents: agent.update(self)`.  Each agent is updated in order; when one
raises (flag `true`), the loop aborts and the remaining agents keep their
old state (Python leaves them untouched as the exception propagates). -/
def update_agents : List Agent → List Agent × Bool
  | [] => ([], false)
  | a :: rest =>
    let r := a.update
    if r.2 then (r.1 :: rest, true)
    else
      let rr := update_agents rest
      (r.1 :: rr.1, rr.2)

/-- Membership test of the comprehension in
`_handle_agent_food_interaction`: the pellet shares the agent's cell and is
still edible (`energy_value > 0`). -/
def edible_at (agent : Agent) (p : FoodPellet) : Prop :=
  p.x = agent.x ∧ p.y = agent.y ∧ 0 < p.energy_value

instance (agent : Agent) (p : FoodPellet) : Decidable (edible_at agent p) := by
  unfold edible_at; infer_instance

/-- Index selection of `_handle_agent_food_interaction`:
`food_at_location_indices[0]`, the first index whose pellet shares the
agent's cell and has `energy_value > 0` (`none` when the comprehension is
empty). -/
def first_edible_index (agent : Agent) : List FoodPellet → Option ℕ
  | [] => none
  | p :: rest =>
    if edible_at agent p then some 0
    else (first_edible_index agent rest).map (· + 1)

/-- Fallback pellet for the (in-bounds) list access `self.food[idx]`;
never actually selected because `first_edible_index` returns in-range
indices. -/
def dummy_pellet : FoodPellet := FoodPellet.init 0 0 0 0

/-- Agent-scan phase of `_handle_agent_food_interaction`: iterate agents in
list order; each alive agent with a co-located edible pellet eats the first
such pellet (`Agent.eat` zeroes its `energy_value` in place, modelled by
`List.set`) and its index is added to `eaten_food_indices`.  Returns the
mutated agents (in order), the mutated food list and the eaten-index set. -/
def interaction_scan :
    List Agent → List FoodPellet → Finset ℕ → List Agent × List FoodPellet × Finset ℕ
  | [], food, eaten => ([], food, eaten)
  | a :: rest, food, eaten =>
    if a.alive = false then
      let r := interaction_scan rest food eaten
      (a :: r.1, r.2.1, r.2.2)
    else
      match first_edible_index a food with
      | none =>
        let r := interaction_scan rest food eaten
        (a :: r.1, r.2.1, r.2.2)
      | some i =>
        let ep := a.eat (food.getD i dummy_pellet)
        let r := interaction_scan rest (food.set i ep.2) (insert i eaten)
        (ep.1 :: r.1, r.2.1, r.2.2)

/-- Removal phase of `_handle_agent_food_interaction`:
`for index in sorted(list(eaten_food_indices), reverse=True): if 0 <= index <
len(self.food): self.food.pop(index)` — the indices descending, each popped
once, with the source's bounds guard. -/
def remove_eaten (food : List FoodPellet) (eaten : Finset ℕ) : List FoodPellet :=
  ((eaten.sort (· ≤ ·)).reverse).foldl
    (fun fs i => if i < fs.length then fs.eraseIdx i else fs) food

/-- `SimulationWorld._handle_agent_food_interaction()`: agent scan followed
by batched removal of the eaten pellets. -/
def handle_agent_food_interaction (agents : List Agent) (food : List FoodPellet) :
    List Agent × List FoodPellet :=
  let r := interaction_scan agents food ∅
  (r.1, remove_eaten r.2.1 r.2.2)

/-- Fallback agent for the (in-bounds) list accesses in the interaction-pass
reasoning; never actually selected. -/
def dummy_agent : Agent :=
  { x := 0, y := 0, direction := "N", traits := AgentTraits.init, tick_counter := 0,
    alive := true, target := none, current_behavior_state := "wandering",
    network := ⟨0, 0, 0, fun i _ => i.elim0, fun i => i.elim0, fun i _ => i.elim0,
      fun i => i.elim0⟩ }

/-- One agent's turn inside the scan of `_handle_agent_food_interaction`:
dead agents and agents with no co-located edible pellet change nothing;
otherwise the agent eats the first such pellet, whose zeroed value is
written back into the food list and whose index joins the eaten set. -/
def scan_step (a : Agent) (food : List FoodPellet) (eaten : Finset ℕ) :
    Agent × List FoodPellet × Finset ℕ :=
  if a.alive = false then (a, food, eaten)
  else
    match first_edible_index a food with
    | none => (a, food, eaten)
    | some i =>
      ((a.eat (food.getD i dummy_pellet)).1,
        food.set i (a.eat (food.getD i dummy_pellet)).2,
        insert i eaten)

/-- The food list as it stands when the scan of
`_handle_agent_food_interaction` reaches agent `k`: the food after the first
`k` agents have been processed. -/
def scan_food_at (agents : List Agent) (food : List FoodPellet) (k : ℕ) :
    List FoodPellet :=
  (interaction_scan (agents.take k) food ∅).2.1

/-- Reference removal: keep, in order, exactly the pellets whose position
(counted from `n`) is not in the index list `L`. -/
def exclude_list (L : List ℕ) : ℕ → List FoodPellet → List FoodPellet
  | _, [] => []
  | n, p :: rest =>
    if n ∈ L then exclude_list L (n + 1) rest else p :: exclude_list L (n + 1) rest

/-- Reference removal against an index set: keep, in order, exactly the
pellets whose position (counted from `n`) is not in `s` — each index of `s`
is removed exactly once. -/
def exclude_from (s : Finset ℕ) : ℕ → List FoodPellet → List FoodPellet
  | _, [] => []
  | n, p :: rest =>
    if n ∈ s then exclude_from s (n + 1) rest else p :: exclude_from s (n + 1) rest

/-- `SimulationWorld._spawn_food_over_time()`: when not paused, advance the
timer; on reaching `FOOD_SPAWN_INTERVAL_TICKS`, reset it and append
`FOOD_SPAWN_AMOUNT` fresh pellets at the oracle-supplied random cells.
Returns the new timer and food list. -/
def spawn_food_over_time (paused : Bool) (timer : ℕ) (food : List FoodPellet)
    (rng : ℕ → ℤ × ℤ) : ℕ × List FoodPellet :=
  if paused then (timer, food)
  else
    let t := timer + 1
    if FOOD_SPAWN_INTERVAL_TICKS ≤ t then
      (0, food ++ (List.range FOOD_SPAWN_AMOUNT).map fun k =>
        FoodPellet.init (rng k).1 (rng k).2 FOOD_LIFESPAN_TICKS FOOD_ENERGY_VALUE)
    else (t, food)

/-- Step 5 of `SimulationWorld.update` for the selection: clear
`selected_agent` when the referenced agent is dead; otherwise the reference
survives the filtering of dead agents and its index in the filtered list is
the number of alive agents before it.  (The out-of-range branch cannot arise
from a genuine object reference.) -/
def cleanup_selected (agents : List Agent) (sel : Option ℕ) : Option ℕ :=
  match sel with
  | none => none
  | some i =>
    if h : i < agents.length then
      if (agents.get ⟨i, h⟩).alive then some ((agents.take i).countP (·.alive)) else none
    else none

/-- `SimulationWorld.update()` from `world/__init__.py`: gate on
`state.is_running()`; `state.increment_tick()`; update agents (an
`AttributeError` from `Agent.update` propagates here, aborting the tick with
every earlier in-place mutation kept — flag `true`); age food and drop
expired pellets; run the eating interaction; spawn food on the timer;
clear a dead selection and filter dead agents; `state.finish_step()`. -/
def SimulationWorld.update (w : SimulationWorld) (rng : ℕ → ℤ × ℤ) :
    SimulationWorld × Bool :=
  if w.state.is_running = false then (w, false)
  else
    let st := w.state.increment_tick
    let ar := update_agents w.agents
    if ar.2 then ({ w with state := st, agents := ar.1 }, true)
    else
      let food1 := (w.food.map FoodPellet.update).filter fun p => !p.is_expired
      let inter := handle_agent_food_interaction ar.1 food1
      let sp := spawn_food_over_time st.paused w.food_spawn_timer inter.2 rng
      let sel := cleanup_selected inter.1 w.selected_agent
      ({ state := st.finish_step
         agents := inter.1.filter (·.alive)
         food := sp.2
         selected_agent := sel
         food_spawn_timer := sp.1 }, false)

/-! ## Concrete fixtures for witnesses and counterexamples -/

/-- A network of the constructor's shape `(2, 4, 1)` with all weights and
biases zero (one possible draw shape; values abstract in the model). -/
def zero_net : NeuralNetwork where
  input_size := 2
  hidden_size := 4
  output_size := 1
  weights_input_hidden := fun _ _ => 0
  bias_hidden := fun _ => 0
  weights_hidden_output := fun _ _ => 0
  bias_output := fun _ => 0

/-- A freshly initialised agent at the origin facing East. -/
def base_agent : Agent where
  x := 0
  y := 0
  direction := "E"
  traits := AgentTraits.init
  tick_counter := 0
  alive := true
  target := none
  current_behavior_state := AgentState.WANDERING
  network := zero_net

/-- Agent with energy close to `max_energy` (990 of 1000). -/
def c1_agent : Agent :=
  { base_agent with traits := { AgentTraits.init with energy := 990 } }

/-- A pellet worth 20 energy. -/
def c1_pellet : FoodPellet := FoodPellet.init 5 5 10 20

/-- A paused world with no pending ticks. -/
def c5_world : SimulationWorld where
  state := { tick_count := 7, paused := true, pending_ticks := 0 }
  agents := [base_agent]
  food := [c1_pellet]
  selected_agent := some 0
  food_spawn_timer := 3

/-- An empty running world: not paused, 2 pending ticks, tick count 4. -/
def c4_world : SimulationWorld where
  state := { tick_count := 4, paused := false, pending_ticks := 2 }
  agents := []
  food := []
  selected_agent := none
  food_spawn_timer := 0

/-- Network of the constructor's shape with zero input-layer weights/biases
and all hidden-to-output weights 1: its decision value is `sigmoid 2 > 0.5`
on every observation. -/
def seek_net : NeuralNetwork where
  input_size := 2
  hidden_size := 4
  output_size := 1
  weights_input_hidden := fun _ _ => 0
  bias_hidden := fun _ => 0
  weights_hidden_output := fun _ _ => 1
  bias_output := fun _ => 0

/-- Pellet at distance 3 from the origin (the agent's current target). -/
def c3_far_pellet : FoodPellet := FoodPellet.init 3 0 10 20

/-- Pellet at distance 1 from the origin (currently the nearest). -/
def c3_near_pellet : FoodPellet := FoodPellet.init 1 0 10 20

/-- Agent already in `SEEKING_FOOD` with the far pellet as target. -/
def c3_agent : Agent :=
  { base_agent with
    current_behavior_state := AgentState.SEEKING_FOOD
    target := some c3_far_pellet
    network := seek_net }

/-- Food list for the C3 scenario. -/
def c3_food : List FoodPellet := [c3_far_pellet, c3_near_pellet]

/-- Agent at the origin with the default vision range 5 and an all-zero
network. -/
def c7_agent : Agent := base_agent

/-- Pellet at squared distance exactly 25 from the origin. -/
def c7_pellet25 : FoodPellet := FoodPellet.init 3 4 10 20

/-- Pellet at squared distance 26 from the origin. -/
def c7_pellet26 : FoodPellet := FoodPellet.init 1 5 10 20

/-- Agent standing at cell (5, 5). -/
def c6_agent : Agent := { base_agent with x := 5, y := 5 }

/-- First pellet at the agent's cell, worth 20. -/
def c6_pellet1 : FoodPellet := FoodPellet.init 5 5 10 20

/-- Second pellet at the same cell, worth 30. -/
def c6_pellet2 : FoodPellet := FoodPellet.init 5 5 10 30

/-! ## C1 — Agent.eat does NOT clamp to max_energy -/

/-- C1, counterexample: an agent with energy 990 (max 1000) eating a pellet
worth 20 ends with energy 1010, not `min(990 + 20, 1000) = 1000` as the
claim states, so `traits.energy ≤ traits.max_energy` is violated right after
`eat` (the clamp in `Agent.eat` is commented out in the source). -/
theorem C1_eat_clamp_cex :
    (c1_agent.eat c1_pellet).1.traits.energy
      ≠ min (c1_agent.traits.energy + c1_pellet.energy_value) c1_agent.traits.max_energy
    ∧ c1_agent.traits.max_energy < (c1_agent.eat c1_pellet).1.traits.energy
    ∧ 0 < c1_pellet.energy_value := by
  have he : (c1_agent.eat c1_pellet).1.traits.energy = 1010 := by
    norm_num [Agent.eat, c1_agent, c1_pellet, FoodPellet.init, base_agent, AgentTraits.init]
  refine ⟨?_, ?_, by norm_num [c1_pellet, FoodPellet.init]⟩
  · rw [he]
    norm_num [c1_agent, c1_pellet, base_agent, AgentTraits.init, FoodPellet.init,
      BASE_MAX_ENERGY, min_def]
  · rw [he]
    norm_num [c1_agent, base_agent, AgentTraits.init, BASE_MAX_ENERGY]

/-- C1, amended: for every agent and pellet with `energy_value > 0`,
`Agent.eat` adds the pellet's full `energy_value` to the agent's energy with
no clamping (the result may exceed `max_energy`), zeroes the pellet's
`energy_value`, and clears the agent's target exactly when that pellet was
the target; position and liveness are untouched. -/
theorem C1_eat_adds_unclamped (a : Agent) (p : FoodPellet) (hp : 0 < p.energy_value) :
    (a.eat p).1.traits.energy = a.traits.energy + p.energy_value
    ∧ (a.eat p).2.energy_value = 0
    ∧ (a.eat p).1.target = (if a.target = some p then none else a.target)
    ∧ (a.eat p).1.alive = a.alive
    ∧ (a.eat p).1.x = a.x ∧ (a.eat p).1.y = a.y := by
  unfold Agent.eat
  rw [if_pos hp]
  by_cases h : a.target = some p <;> simp [h]

/-- C1, witness: the amended statement applied to the concrete
990-energy agent and the 20-energy pellet. -/
theorem C1_eat_witness :
    (c1_agent.eat c1_pellet).1.traits.energy
      = c1_agent.traits.energy + c1_pellet.energy_value :=
  (C1_eat_adds_unclamped c1_agent c1_pellet (by decide)).1

/-! ## C2 — Agent.update raises AttributeError every tick it reaches
the behavior call -/

/-- C2: for every alive agent whose incremented age stays below `max_age`,
`Agent.update` raises (flag `true`): execution reaches
`behavior.decide_next_action(self, world)` and the `agent.behavior` module
defines no attribute `decide_next_action`, so the transition/execution
phases of `agent/behavior.py` are never run and the engine fails with an
`AttributeError` — a failure surface beyond the decision network's
input-shape check. -/
theorem C2_update_raises (a : Agent) (h1 : a.alive = true)
    (h2 : a.traits.age + 1 < a.traits.max_age) :
    (Agent.update a).2 = true ∧ "decide_next_action" ∉ behavior_module_attrs := by
  refine ⟨?_, by decide⟩
  unfold Agent.update
  rw [if_neg (by simp [h1])]
  rw [if_neg (by simpa using Nat.not_le.mpr h2)]

/-- C2, witness: a freshly initialised alive agent (age 0, max age 1000)
raises on update. -/
theorem C2_update_raises_witness : (Agent.update base_agent).2 = true :=
  (C2_update_raises base_agent rfl (by decide)).1

/-! ## C5 — update is a full no-op while paused with no pending ticks -/

/-- C5: when `paused = true` and `pending_ticks = 0`, `SimulationWorld.update`
returns the world completely unchanged (same agents, food, tick count, spawn
timer and selection) and raises nothing. -/
theorem C5_paused_noop (w : SimulationWorld) (rng : ℕ → ℤ × ℤ)
    (hp : w.state.paused = true) (h0 : w.state.pending_ticks = 0) :
    w.update rng = (w, false) := by
  unfold SimulationWorld.update
  rw [if_pos]
  simp [SimulationState.is_running, hp, h0]

/-- C5, witness: a concrete paused world with an agent, a pellet, a selection
and a nonzero spawn timer is returned unchanged. -/
theorem C5_paused_noop_witness : c5_world.update (fun _ => (0, 0)) = (c5_world, false) :=
  C5_paused_noop c5_world (fun _ => (0, 0)) rfl rfl

/-! ## C8 — movement: horizontal wrap, vertical clamp -/

/-- C8: for every agent and redirect draw, `move_agent` sets
`x' = (x + dx) % GRID_COLS` (so `0 ≤ x' < cols` always, and an agent at
`x = cols - 1` facing East ends at `x = 0`), and sets `y' = y + dy` only when
that lies in `[0, GRID_ROWS)`, leaving `y` unchanged otherwise (so an agent
at `y = 0` facing North keeps `y = 0`, and `0 ≤ y < rows` is preserved). -/
theorem C8_move_agent_wrap_clamp (a : Agent) (r : Option String) :
    (move_agent a r).x = (a.x + (get_direction_delta a.direction).1) % GRID_COLS
    ∧ 0 ≤ (move_agent a r).x ∧ (move_agent a r).x < GRID_COLS
    ∧ (move_agent a r).y =
        (if 0 ≤ a.y + (get_direction_delta a.direction).2 ∧
            a.y + (get_direction_delta a.direction).2 < GRID_ROWS
         then a.y + (get_direction_delta a.direction).2 else a.y)
    ∧ (0 ≤ a.y → a.y < GRID_ROWS → 0 ≤ (move_agent a r).y ∧ (move_agent a r).y < GRID_ROWS)
    ∧ (a.direction = "E" → a.x = GRID_COLS - 1 → (move_agent a r).x = 0)
    ∧ (a.direction = "N" → a.y = 0 → (move_agent a r).y = 0) := by
  have hx : (move_agent a r).x = (a.x + (get_direction_delta a.direction).1) % GRID_COLS := by
    unfold move_agent
    cases a.target <;> cases r <;> rfl
  have hy : (move_agent a r).y =
      (if 0 ≤ a.y + (get_direction_delta a.direction).2 ∧
          a.y + (get_direction_delta a.direction).2 < GRID_ROWS
       then a.y + (get_direction_delta a.direction).2 else a.y) := by
    unfold move_agent
    cases a.target <;> cases r <;> rfl
  refine ⟨hx, ?_, ?_, hy, ?_, ?_, ?_⟩
  · rw [hx]; exact Int.emod_nonneg _ (by decide)
  · rw [hx]; exact Int.emod_lt_of_pos _ (by decide)
  · intro h1 h2
    rw [hy]
    split
    · unfold GRID_ROWS at *; omega
    · exact ⟨h1, h2⟩
  · intro hd hx191
    rw [hx, hd, hx191]
    decide
  · intro hd hy0
    rw [hy, hd, hy0]
    decide

/-- C8, witness: an agent at `(191, 0)` facing East wraps to `x = 0`; a
North-facing agent at `y = 0` keeps `y = 0`. -/
theorem C8_move_agent_witness :
    (move_agent { base_agent with x := 191 } none).x = 0
    ∧ (move_agent { base_agent with direction := "N" } none).y = 0 := by
  constructor
  · exact (C8_move_agent_wrap_clamp { base_agent with x := 191 } none).2.2.2.2.2.1 rfl rfl
  · exact (C8_move_agent_wrap_clamp { base_agent with direction := "N" } none).2.2.2.2.2.2 rfl rfl

/-! ## C9 — forward rejects exactly the wrong-length inputs -/

/-- C9: `NeuralNetwork.forward` returns a result (no error) iff the input
vector's length equals the network's `input_size`; for any other length it
raises the `ValueError`. -/
theorem C9_forward_ok_iff (net : NeuralNetwork) (input : List ℝ) :
    (∃ out, net.forward input = .ok out) ↔ input.length = net.input_size := by
  unfold NeuralNetwork.forward
  split
  · simp [*]
  · simp [*]

/-! ## C10 — pausing discards queued steps -/

/-- C10: toggling pause on a running clock leaves it paused with
`pending_ticks = 0`: steps queued before the pause are discarded, so they
cannot execute after a later resume. -/
theorem C10_pause_clears_pending (s : SimulationState) (h : s.paused = false) :
    s.toggle_pause.paused = true ∧ s.toggle_pause.pending_ticks = 0 := by
  simp [SimulationState.toggle_pause, h]

/-- C10, witness: a running clock with 5 queued steps, once paused, holds no
pending ticks. -/
theorem C10_pause_clears_pending_witness :
    ({ tick_count := 3, paused := false, pending_ticks := 5 } :
      SimulationState).toggle_pause.pending_ticks = 0 :=
  (C10_pause_clears_pending _ rfl).2

/-! ## C4 — tick gating and tick-count accounting -/

/-- Helper: the clock state produced by `SimulationWorld.update` —
incremented when the gate passes (in both the normal and the
exception-propagating branch), untouched otherwise. -/
theorem update_state_eq (w : SimulationWorld) (rng : ℕ → ℤ × ℤ) :
    (w.update rng).1.state =
      (if w.state.is_running = true then w.state.increment_tick else w.state) := by
  unfold SimulationWorld.update
  by_cases h : w.state.is_running = false
  · rw [if_pos h]
    simp [h]
  · have h' : w.state.is_running = true := by
      revert h; cases w.state.is_running <;> simp
    rw [if_neg (by simp [h']), if_pos h']
    cases hA : (update_agents w.agents).2 <;>
      simp [hA, SimulationState.finish_step]

/-- C4: `SimulationWorld.update` advances `tick_count` by exactly 1 iff the
clock is not paused or has pending ticks (`is_running`), in which case a
positive `pending_ticks` drops by exactly 1; when the gate fails the world is
returned untouched.  `tick_count` never decreases under `update`, and of the
clock operations only `increment_tick` changes it (by +1) — `toggle_pause`,
`step_once`, `step_many` and `finish_step` leave it fixed (`reset` excepted,
as the claim allows). -/
theorem C4_tick_gate (w : SimulationWorld) (rng : ℕ → ℤ × ℤ)
    (s : SimulationState) (n : ℕ) :
    ((w.update rng).1.state.tick_count = w.state.tick_count + 1 ↔
      (w.state.paused = false ∨ 0 < w.state.pending_ticks))
    ∧ (w.state.is_running = true →
        (w.update rng).1.state.tick_count = w.state.tick_count + 1
        ∧ (0 < w.state.pending_ticks →
            (w.update rng).1.state.pending_ticks = w.state.pending_ticks - 1))
    ∧ (w.state.is_running = false → w.update rng = (w, false))
    ∧ w.state.tick_count ≤ (w.update rng).1.state.tick_count
    ∧ s.toggle_pause.tick_count = s.tick_count
    ∧ s.step_once.tick_count = s.tick_count
    ∧ (s.step_many n).tick_count = s.tick_count
    ∧ s.finish_step.tick_count = s.tick_count
    ∧ s.increment_tick.tick_count = s.tick_count + 1 := by
  have hrun : w.state.is_running = true ↔
      (w.state.paused = false ∨ 0 < w.state.pending_ticks) := by
    unfold SimulationState.is_running
    cases w.state.paused <;> simp
  have hst := update_state_eq w rng
  refine ⟨?_, ?_, ?_, ?_, ?_, ?_, ?_, rfl, rfl⟩
  · rw [hst]
    by_cases h : w.state.is_running = true
    · rw [if_pos h]
      simp [SimulationState.increment_tick, hrun.mp h]
    · rw [if_neg h]
      constructor
      · intro hc; omega
      · intro hc
        exact absurd (hrun.mpr hc) h
  · intro h
    rw [hst, if_pos h]
    refine ⟨rfl, fun hp => ?_⟩
    simp [SimulationState.increment_tick, hp]
  · intro h
    unfold SimulationWorld.update
    rw [if_pos h]
  · rw [hst]
    split
    · simp [SimulationState.increment_tick]
    · exact le_refl _
  · cases hp : s.paused <;> simp [SimulationState.toggle_pause, hp]
  · unfold SimulationState.step_once
    split <;> rfl
  · unfold SimulationState.step_many
    split <;> rfl

/-- C4, witness: a running clock (not paused, 2 pending ticks) advances its
tick count by 1 and consumes one pending tick; the paused/no-pending world is
returned untouched. -/
theorem C4_tick_gate_witness :
    (c4_world.update (fun _ => (0, 0))).1.state.tick_count = 5
    ∧ (c4_world.update (fun _ => (0, 0))).1.state.pending_ticks = 1
    ∧ c5_world.update (fun _ => (0, 0)) = (c5_world, false) := by
  have h4 := (C4_tick_gate c4_world (fun _ => (0, 0)) SimulationState.init 0).2.1 (by decide)
  have h5 := (C4_tick_gate c5_world (fun _ => (0, 0)) SimulationState.init 0).2.2.1 (by decide)
  exact ⟨h4.1, h4.2 (by decide), h5⟩

/-! ## C3 — get_next_state reassigns the target on every SEEKING_FOOD tick -/

/-- Helper: `sigmoid 0 = 1/2`. -/
theorem sigmoid_zero_eq : sigmoid 0 = 1 / 2 := by
  unfold sigmoid
  rw [neg_zero, Real.exp_zero]
  norm_num

/-- Helper: the sigmoid of a positive input exceeds `1/2`. -/
theorem sigmoid_gt_half_of_pos (x : ℝ) (hx : 0 < x) : 1 / 2 < sigmoid x := by
  unfold sigmoid
  have h1 : Real.exp (-x) < 1 := Real.exp_lt_one_iff.mpr (by linarith)
  have h2 : 0 < 1 + Real.exp (-x) := by positivity
  have := one_div_lt_one_div_of_lt h2 (by linarith : 1 + Real.exp (-x) < 2)
  simpa using this

/-- Helper: `seek_net` answers the row `[sigmoid 2]` on every length-2 input. -/
theorem seek_net_forward (input : List ℝ) (h : input.length = 2) :
    seek_net.forward input = .ok [sigmoid 2] := by
  unfold NeuralNetwork.forward
  rw [if_pos (by simpa [seek_net] using h)]
  congr 1
  have hcard : ((Finset.univ : Finset (Fin 4)).card : ℝ) = 4 := by simp
  simp [seek_net, List.ofFn_succ, List.ofFn_zero, sigmoid_zero_eq, Finset.sum_const, hcard]
  norm_num

/-- Helper: the decision read of the C3 scenario is `sigmoid 2`. -/
theorem c3_decision_value : decision_value c3_agent c3_food = .ok (sigmoid 2) := by
  have hnet : c3_agent.network = seek_net := rfl
  have hfor : c3_agent.network.forward (get_observation c3_agent c3_food)
      = .ok [sigmoid 2] := by
    rw [hnet]
    exact seek_net_forward _ rfl
  unfold decision_value
  rw [hfor]
  rfl

/-- Helper: the C3 transition keeps the agent in `SEEKING_FOOD` and rewrites
its target to the now-nearest pellet. -/
theorem c3_decision :
    get_next_state c3_agent c3_food
      = .ok ({ c3_agent with target := some c3_near_pellet }, AgentState.SEEKING_FOOD) := by
  have hfind : find_nearest_food c3_agent c3_food = some c3_near_pellet := by decide
  have hgt : sigmoid 2 > 0.5 := by
    have := sigmoid_gt_half_of_pos 2 (by norm_num)
    norm_num at this ⊢
    linarith
  unfold get_next_state
  simp only [c3_decision_value]
  rw [if_pos ⟨hgt, by rw [hfind]; rfl⟩, hfind]

/-- C3, counterexample: an agent already in `SEEKING_FOOD` (target: the
pellet at distance 3) that stays in `SEEKING_FOOD` (decision `sigmoid 2 >
0.5`, food visible) does NOT keep its target as-is: `get_next_state`
reassigns it to the now-nearest pellet at distance 1 on this very tick. -/
theorem C3_target_kept_cex :
    c3_agent.current_behavior_state = AgentState.SEEKING_FOOD
    ∧ get_next_state c3_agent c3_food
        = .ok ({ c3_agent with target := some c3_near_pellet }, AgentState.SEEKING_FOOD)
    ∧ c3_agent.target = some c3_far_pellet
    ∧ some c3_near_pellet ≠ c3_agent.target :=
  ⟨rfl, c3_decision, rfl, by decide⟩

/-- C3, amended: whenever `get_next_state` returns `SEEKING_FOOD` (decision
value above 0.5 and food visible) the agent's target is reassigned to
`find_nearest_food(agent, world.food)` — on every tick, entering or staying;
the target is left as-is only when the agent stays in `WANDERING`. -/
theorem C3_target_refresh (a : Agent) (food : List FoodPellet) (a' : Agent)
    (st : String) (h : get_next_state a food = .ok (a', st)) :
    (st = AgentState.SEEKING_FOOD → a'.target = find_nearest_food a food)
    ∧ (st = AgentState.WANDERING → a.current_behavior_state = AgentState.WANDERING →
        a'.target = a.target) := by
  unfold get_next_state at h
  split at h
  · exact Except.noConfusion h
  · split at h
    · rw [Except.ok.injEq] at h
      injection h with ha hs
      refine ⟨fun _ => ?_, fun hw _ => ?_⟩
      · rw [← ha]
      · exact absurd (hs.trans hw) (by decide)
    · split at h
      · rw [Except.ok.injEq] at h
        injection h with ha hs
        refine ⟨fun hseek => ?_, fun hw hwand => ?_⟩
        · exact absurd (hs.trans hseek) (by decide)
        · rename_i hne
          exact absurd hwand hne
      · rw [Except.ok.injEq] at h
        injection h with ha hs
        refine ⟨fun hseek => ?_, fun _ _ => ?_⟩
        · exact absurd (hs.trans hseek) (by decide)
        · rw [← ha]

/-- C3, witness: the amended statement applied to the concrete staying-in-
`SEEKING_FOOD` scenario: the resulting target is the nearest visible pellet. -/
theorem C3_target_refresh_witness :
    ({ c3_agent with target := some c3_near_pellet } : Agent).target
      = find_nearest_food c3_agent c3_food :=
  (C3_target_refresh c3_agent c3_food _ _ c3_decision).1 rfl

/-! ## C7 — find_nearest_food returns the nearest edible in-range pellet -/

/-- Helper: the loop returns `none` iff it started from `none` and every
pellet of the list is ineligible (depleted or out of vision range). -/
theorem fnf_loop_none_iff (agent : Agent) (l : List FoodPellet) :
    ∀ best, (find_nearest_food_loop agent l best = none ↔
      best = none ∧ ∀ p ∈ l, ¬ pellet_eligible agent p) := by
  induction l with
  | nil => intro best; simp [find_nearest_food_loop]
  | cons p rest ih =>
    intro best
    by_cases h1 : p.energy_value ≤ 0
    · rw [show find_nearest_food_loop agent (p :: rest) best
          = find_nearest_food_loop agent rest best by
        simp [find_nearest_food_loop, h1]]
      rw [ih]
      have hne : ¬ pellet_eligible agent p := fun hc => absurd hc.1 (not_lt.mpr h1)
      simp only [List.mem_cons, forall_eq_or_imp]
      tauto
    · by_cases h2 : dist_sq agent.x agent.y p ≤ agent.traits.vision_range ^ 2 ∧
          improves_best (dist_sq agent.x agent.y p) best = true
      · rw [show find_nearest_food_loop agent (p :: rest) best
            = find_nearest_food_loop agent rest (some (p, dist_sq agent.x agent.y p)) by
          simp [find_nearest_food_loop, h1, h2]]
        rw [ih]
        have hel : pellet_eligible agent p := ⟨not_le.mp h1, h2.1⟩
        simp only [List.mem_cons, forall_eq_or_imp]
        constructor
        · rintro ⟨hc, -⟩; cases hc
        · rintro ⟨-, hnp, -⟩; exact absurd hel hnp
      · rw [show find_nearest_food_loop agent (p :: rest) best
            = find_nearest_food_loop agent rest best by
          simp only [find_nearest_food_loop]
          rw [if_neg h1, if_neg h2]]
        rw [ih]
        simp only [List.mem_cons, forall_eq_or_imp]
        constructor
        · rintro ⟨hb, hall⟩
          refine ⟨hb, ?_, hall⟩
          intro hel
          apply h2
          refine ⟨hel.2, ?_⟩
          rw [hb]
          rfl
        · rintro ⟨hb, -, hall⟩; exact ⟨hb, hall⟩

/-- Helper: a `some` result of the loop either is the starting best or is an
eligible pellet of the list paired with its own squared distance. -/
theorem fnf_loop_some_origin (agent : Agent) (l : List FoodPellet) :
    ∀ best b, find_nearest_food_loop agent l best = some b →
      best = some b ∨
        (b.1 ∈ l ∧ b.2 = dist_sq agent.x agent.y b.1 ∧ pellet_eligible agent b.1) := by
  induction l with
  | nil =>
    intro best b h
    exact Or.inl (by simpa [find_nearest_food_loop] using h)
  | cons p rest ih =>
    intro best b h
    by_cases h1 : p.energy_value ≤ 0
    · rw [show find_nearest_food_loop agent (p :: rest) best
          = find_nearest_food_loop agent rest best by
        simp [find_nearest_food_loop, h1]] at h
      rcases ih best b h with hb | ⟨hm, hd, he⟩
      · exact Or.inl hb
      · exact Or.inr ⟨List.mem_cons_of_mem _ hm, hd, he⟩
    · by_cases h2 : dist_sq agent.x agent.y p ≤ agent.traits.vision_range ^ 2 ∧
          improves_best (dist_sq agent.x agent.y p) best = true
      · rw [show find_nearest_food_loop agent (p :: rest) best
            = find_nearest_food_loop agent rest (some (p, dist_sq agent.x agent.y p)) by
          simp [find_nearest_food_loop, h1, h2]] at h
        rcases ih _ b h with hb | ⟨hm, hd, he⟩
        · obtain rfl : (p, dist_sq agent.x agent.y p) = b := Option.some.inj hb
          exact Or.inr ⟨List.mem_cons_self .., rfl, ⟨not_le.mp h1, h2.1⟩⟩
        · exact Or.inr ⟨List.mem_cons_of_mem _ hm, hd, he⟩
      · rw [show find_nearest_food_loop agent (p :: rest) best
            = find_nearest_food_loop agent rest best by
          simp only [find_nearest_food_loop]
          rw [if_neg h1, if_neg h2]] at h
        rcases ih best b h with hb | ⟨hm, hd, he⟩
        · exact Or.inl hb
        · exact Or.inr ⟨List.mem_cons_of_mem _ hm, hd, he⟩

/-- Helper: the loop never worsens the running best's distance. -/
theorem fnf_loop_le_best (agent : Agent) (l : List FoodPellet) :
    ∀ best b b0, find_nearest_food_loop agent l best = some b →
      best = some b0 → b.2 ≤ b0.2 := by
  induction l with
  | nil =>
    intro best b b0 h hb
    simp only [find_nearest_food_loop] at h
    rw [hb] at h
    exact le_of_eq (congrArg Prod.snd (Option.some.inj h)).symm
  | cons p rest ih =>
    intro best b b0 h hb
    by_cases h1 : p.energy_value ≤ 0
    · rw [show find_nearest_food_loop agent (p :: rest) best
          = find_nearest_food_loop agent rest best by
        simp [find_nearest_food_loop, h1]] at h
      exact ih best b b0 h hb
    · by_cases h2 : dist_sq agent.x agent.y p ≤ agent.traits.vision_range ^ 2 ∧
          improves_best (dist_sq agent.x agent.y p) best = true
      · rw [show find_nearest_food_loop agent (p :: rest) best
            = find_nearest_food_loop agent rest (some (p, dist_sq agent.x agent.y p)) by
          simp [find_nearest_food_loop, h1, h2]] at h
        have hlt : dist_sq agent.x agent.y p < b0.2 := by
          have := h2.2
          rw [hb] at this
          simpa [improves_best] using this
        have := ih _ b (p, dist_sq agent.x agent.y p) h rfl
        exact le_of_lt (lt_of_le_of_lt this hlt)
      · rw [show find_nearest_food_loop agent (p :: rest) best
            = find_nearest_food_loop agent rest best by
          simp only [find_nearest_food_loop]
          rw [if_neg h1, if_neg h2]] at h
        exact ih best b b0 h hb

/-- Helper: a `some` result of the loop beats (or ties) the squared distance
of every eligible pellet of the list. -/
theorem fnf_loop_min (agent : Agent) (l : List FoodPellet) :
    ∀ best b, find_nearest_food_loop agent l best = some b →
      ∀ q ∈ l, pellet_eligible agent q → b.2 ≤ dist_sq agent.x agent.y q := by
  induction l with
  | nil => intro best b _ q hq; cases hq
  | cons p rest ih =>
    intro best b h q hq hel
    by_cases h1 : p.energy_value ≤ 0
    · rw [show find_nearest_food_loop agent (p :: rest) best
          = find_nearest_food_loop agent rest best by
        simp [find_nearest_food_loop, h1]] at h
      rcases List.mem_cons.mp hq with rfl | hq'
      · exact absurd hel.1 (not_lt.mpr h1)
      · exact ih best b h q hq' hel
    · by_cases h2 : dist_sq agent.x agent.y p ≤ agent.traits.vision_range ^ 2 ∧
          improves_best (dist_sq agent.x agent.y p) best = true
      · rw [show find_nearest_food_loop agent (p :: rest) best
            = find_nearest_food_loop agent rest (some (p, dist_sq agent.x agent.y p)) by
          simp [find_nearest_food_loop, h1, h2]] at h
        rcases List.mem_cons.mp hq with rfl | hq'
        · exact fnf_loop_le_best agent rest _ b _ h rfl
        · exact ih _ b h q hq' hel
      · rw [show find_nearest_food_loop agent (p :: rest) best
            = find_nearest_food_loop agent rest best by
          simp only [find_nearest_food_loop]
          rw [if_neg h1, if_neg h2]] at h
        rcases List.mem_cons.mp hq with rfl | hq'
        · -- q = p is eligible but was not taken: the running best must be a
          -- `some` whose distance is at most `dist_sq p`.
          cases hbest : best with
          | none =>
            exfalso
            apply h2
            rw [hbest]
            exact ⟨hel.2, rfl⟩
          | some b0 =>
            have hble : b.2 ≤ b0.2 := fnf_loop_le_best agent rest best b b0 h hbest
            have hnot : ¬ dist_sq agent.x agent.y q < b0.2 := by
              intro hc
              apply h2
              rw [hbest]
              simpa [improves_best, hel.2] using hc
            exact le_trans hble (not_lt.mp hnot)
        · exact ih best b h q hq' hel
/-- Helper: a `some` result of the loop, when it is not the starting best,
sits at an index of the list such that no earlier index holds an eligible
pellet at distance `≤` the result's (the strict-improvement check keeps the
first of a tie), and its distance strictly beats the starting best's. -/
theorem fnf_loop_first (agent : Agent) (l : List FoodPellet) :
    ∀ best b, find_nearest_food_loop agent l best = some b →
      best = some b ∨
      (∃ i, i < l.length ∧ l.getD i dummy_pellet = b.1
        ∧ (∀ j, j < i → ¬ (pellet_eligible agent (l.getD j dummy_pellet)
              ∧ dist_sq agent.x agent.y (l.getD j dummy_pellet) ≤ b.2))
        ∧ ∀ b0, best = some b0 → b.2 < b0.2) := by
  induction l with
  | nil =>
    intro best b h
    exact Or.inl (by simpa [find_nearest_food_loop] using h)
  | cons p rest ih =>
    intro best b h
    by_cases h1 : p.energy_value ≤ 0
    · rw [show find_nearest_food_loop agent (p :: rest) best
          = find_nearest_food_loop agent rest best by
        simp [find_nearest_food_loop, h1]] at h
      rcases ih best b h with hb | ⟨i, hi, hget, hpre, himp⟩
      · exact Or.inl hb
      · refine Or.inr ⟨i + 1, by simpa using Nat.succ_lt_succ hi,
          by simpa [List.getD_cons_succ] using hget, ?_, himp⟩
        intro j hj
        cases j with
        | zero =>
          rintro ⟨hel, -⟩
          rw [List.getD_cons_zero] at hel
          exact absurd hel.1 (not_lt.mpr h1)
        | succ j' =>
          have := hpre j' (by omega)
          simpa [List.getD_cons_succ] using this
    · by_cases h2 : dist_sq agent.x agent.y p ≤ agent.traits.vision_range ^ 2 ∧
          improves_best (dist_sq agent.x agent.y p) best = true
      · rw [show find_nearest_food_loop agent (p :: rest) best
            = find_nearest_food_loop agent rest (some (p, dist_sq agent.x agent.y p)) by
          simp [find_nearest_food_loop, h1, h2]] at h
        rcases ih _ b h with hb | ⟨i, hi, hget, hpre, himp⟩
        · obtain rfl : (p, dist_sq agent.x agent.y p) = b := Option.some.inj hb
          refine Or.inr ⟨0, by simp, List.getD_cons_zero .., ?_, ?_⟩
          · intro j hj
            exact absurd hj (Nat.not_lt_zero j)
          · intro b0 hb0
            have h2' := h2.2
            rw [hb0] at h2'
            simpa [improves_best] using h2'
        · have hlt : b.2 < dist_sq agent.x agent.y p :=
            himp (p, dist_sq agent.x agent.y p) rfl
          refine Or.inr ⟨i + 1, by simpa using Nat.succ_lt_succ hi,
            by simpa [List.getD_cons_succ] using hget, ?_, ?_⟩
          · intro j hj
            cases j with
            | zero =>
              rintro ⟨-, hle⟩
              rw [List.getD_cons_zero] at hle
              exact absurd hle (not_le.mpr hlt)
            | succ j' =>
              have := hpre j' (by omega)
              simpa [List.getD_cons_succ] using this
          · intro b0 hb0
            have h2' := h2.2
            rw [hb0] at h2'
            have hplt : dist_sq agent.x agent.y p < b0.2 := by
              simpa [improves_best] using h2'
            exact lt_trans hlt hplt
      · rw [show find_nearest_food_loop agent (p :: rest) best
            = find_nearest_food_loop agent rest best by
          simp only [find_nearest_food_loop]
          rw [if_neg h1, if_neg h2]] at h
        rcases ih best b h with hb | ⟨i, hi, hget, hpre, himp⟩
        · exact Or.inl hb
        · refine Or.inr ⟨i + 1, by simpa using Nat.succ_lt_succ hi,
            by simpa [List.getD_cons_succ] using hget, ?_, himp⟩
          intro j hj
          cases j with
          | zero =>
            rintro ⟨hel, hle⟩
            rw [List.getD_cons_zero] at hel hle
            cases hbest : best with
            | none =>
              refine h2 ⟨hel.2, ?_⟩
              rw [hbest]
              rfl
            | some b0 =>
              have hb2 : b.2 < b0.2 := himp b0 hbest
              refine h2 ⟨hel.2, ?_⟩
              rw [hbest]
              simpa [improves_best] using lt_of_le_of_lt hle hb2
          | succ j' =>
            have := hpre j' (by omega)
            simpa [List.getD_cons_succ] using this

/-- C7: `find_nearest_food` returns `none` exactly when no pellet of the
list is both edible (`energy_value > 0`) and within squared distance
`vision_range²` (boundary inclusive); and a returned pellet is an edible
in-range member of the list of minimal wrap-aware squared distance, with
ties broken by the first occurrence in list order (no earlier eligible pellet
has distance `≤` the returned one's). -/
theorem C7_find_nearest_food_spec (agent : Agent) (food_list : List FoodPellet) :
    (find_nearest_food agent food_list = none ↔
      ∀ p ∈ food_list, ¬ pellet_eligible agent p)
    ∧ ∀ p, find_nearest_food agent food_list = some p →
        p ∈ food_list ∧ pellet_eligible agent p
        ∧ (∀ q ∈ food_list, pellet_eligible agent q →
            dist_sq agent.x agent.y p ≤ dist_sq agent.x agent.y q)
        ∧ ∃ i, i < food_list.length ∧ food_list.getD i dummy_pellet = p
            ∧ ∀ j, j < i →
                ¬ (pellet_eligible agent (food_list.getD j dummy_pellet)
                   ∧ dist_sq agent.x agent.y (food_list.getD j dummy_pellet)
                      ≤ dist_sq agent.x agent.y p) := by
  constructor
  · unfold find_nearest_food
    rw [Option.map_eq_none']
    rw [fnf_loop_none_iff]
    simp
  · intro p hp
    unfold find_nearest_food at hp
    obtain ⟨b, hb, rfl⟩ : ∃ b, find_nearest_food_loop agent food_list none = some b
        ∧ b.1 = p := by
      cases hl : find_nearest_food_loop agent food_list none with
      | none => rw [hl] at hp; cases hp
      | some b => rw [hl] at hp; exact ⟨b, rfl, Option.some.inj hp⟩
    rcases fnf_loop_some_origin agent food_list none b hb with h0 | ⟨hm, hd, he⟩
    · cases h0
    · refine ⟨hm, he, ?_, ?_⟩
      · intro q hq hqe
        have := fnf_loop_min agent food_list none b hb q hq hqe
        rw [← hd]
        exact this
      · rcases fnf_loop_first agent food_list none b hb with h0 | ⟨i, hi, hget, hpre, -⟩
        · cases h0
        · refine ⟨i, hi, hget, fun j hj => ?_⟩
          rw [← hd]
          exact hpre j hj

/-- C7, witness: with `vision_range = 5`, the pellet at squared distance 25
is returned (boundary inclusive) and proven eligible/minimal by the spec
theorem, while the pellet at squared distance 26 is not eligible. -/
theorem C7_find_nearest_food_witness :
    find_nearest_food c7_agent [c7_pellet26, c7_pellet25] = some c7_pellet25
    ∧ pellet_eligible c7_agent c7_pellet25
    ∧ dist_sq c7_agent.x c7_agent.y c7_pellet25 = 25
    ∧ ¬ pellet_eligible c7_agent c7_pellet26
    ∧ dist_sq c7_agent.x c7_agent.y c7_pellet26 = 26 := by
  have h := (C7_find_nearest_food_spec c7_agent [c7_pellet26, c7_pellet25]).2
    c7_pellet25 (by decide)
  exact ⟨by decide, h.2.1, by decide, by decide, by decide⟩

/-! ## C6 — the eating-interaction pass -/

/-- Helper: `Agent.eat` on an edible pellet adds exactly its value and
zeroes the pellet. -/
theorem eat_adds (a : Agent) (p : FoodPellet) (hp : 0 < p.energy_value) :
    (a.eat p).1.traits.energy = a.traits.energy + p.energy_value
    ∧ (a.eat p).2.energy_value = 0 := by
  unfold Agent.eat
  rw [if_pos hp]
  by_cases h : a.target = some p <;> simp [h]

/-- Helper: a `some` answer of `first_edible_index` is an in-bounds index of
a co-located edible pellet, and no smaller index holds one. -/
theorem first_edible_index_spec (a : Agent) :
    ∀ (l : List FoodPellet) (i : ℕ), first_edible_index a l = some i →
      i < l.length ∧ edible_at a (l.getD i dummy_pellet)
      ∧ ∀ j, j < i → ¬ edible_at a (l.getD j dummy_pellet) := by
  intro l
  induction l with
  | nil => intro i h; cases h
  | cons p rest ih =>
    intro i h
    by_cases he : edible_at a p
    · rw [first_edible_index, if_pos he] at h
      obtain rfl : (0 : ℕ) = i := Option.some.inj h
      refine ⟨by simp, by simpa using he, ?_⟩
      intro j hj
      exact absurd hj (Nat.not_lt_zero j)
    · rw [first_edible_index, if_neg he] at h
      cases hr : first_edible_index a rest with
      | none => rw [hr] at h; cases h
      | some i' =>
        rw [hr] at h
        obtain rfl : i' + 1 = i := Option.some.inj h
        obtain ⟨hb, hc, hpre⟩ := ih i' hr
        refine ⟨by simpa using Nat.succ_lt_succ hb, by simpa [List.getD_cons_succ] using hc, ?_⟩
        intro j hj
        cases j with
        | zero => simpa [List.getD_cons_zero] using he
        | succ j' =>
          have := hpre j' (by omega)
          simpa [List.getD_cons_succ] using this

/-- Helper: `first_edible_index` answers `none` exactly when no position of
the list holds a co-located edible pellet. -/
theorem first_edible_index_none (a : Agent) :
    ∀ l : List FoodPellet, (first_edible_index a l = none ↔
      ∀ j, j < l.length → ¬ edible_at a (l.getD j dummy_pellet)) := by
  intro l
  induction l with
  | nil => simp [first_edible_index]
  | cons p rest ih =>
    by_cases he : edible_at a p
    · rw [first_edible_index, if_pos he]
      simp only [iff_false_intro (Option.some_ne_none (0 : ℕ)), false_iff]
      intro hall
      exact absurd (by simpa [List.getD_cons_zero] using he)
        (hall 0 (by simp))
    · rw [first_edible_index, if_neg he]
      constructor
      · intro h j hj
        have hr : first_edible_index a rest = none := by
          cases hr : first_edible_index a rest with
          | none => rfl
          | some i' => rw [hr] at h; cases h
        cases j with
        | zero => simpa [List.getD_cons_zero] using he
        | succ j' =>
          have := (ih.mp hr) j' (by simpa using Nat.lt_of_succ_lt_succ hj)
          simpa [List.getD_cons_succ] using this
      · intro hall
        have hr : first_edible_index a rest = none := by
          apply ih.mpr
          intro j hj
          have := hall (j + 1) (by simpa using Nat.succ_lt_succ hj)
          simpa [List.getD_cons_succ] using this
        rw [hr]
        rfl

/-- Helper: unfolding one agent of the scan, agent-list component. -/
theorem interaction_scan_cons_fst (a : Agent) (rest : List Agent)
    (food : List FoodPellet) (eaten : Finset ℕ) :
    (interaction_scan (a :: rest) food eaten).1 =
      (scan_step a food eaten).1 ::
        (interaction_scan rest (scan_step a food eaten).2.1
          (scan_step a food eaten).2.2).1 := by
  by_cases ha : a.alive = false
  · simp [interaction_scan, scan_step, ha]
  · cases hi : first_edible_index a food <;>
      simp [interaction_scan, scan_step, ha, hi]

/-- Helper: unfolding one agent of the scan, food/eaten components. -/
theorem interaction_scan_cons_snd (a : Agent) (rest : List Agent)
    (food : List FoodPellet) (eaten : Finset ℕ) :
    (interaction_scan (a :: rest) food eaten).2 =
      (interaction_scan rest (scan_step a food eaten).2.1
        (scan_step a food eaten).2.2).2 := by
  by_cases ha : a.alive = false
  · simp [interaction_scan, scan_step, ha]
  · cases hi : first_edible_index a food <;>
      simp [interaction_scan, scan_step, ha, hi]

/-- Helper: the scan only ever adds to the eaten-index set. -/
theorem scan_eaten_mono :
    ∀ (agents : List Agent) (food : List FoodPellet) (eaten : Finset ℕ),
      eaten ⊆ (interaction_scan agents food eaten).2.2 := by
  intro agents
  induction agents with
  | nil => intro food eaten; exact Finset.Subset.refl eaten
  | cons a rest ih =>
    intro food eaten
    have h2 := interaction_scan_cons_snd a rest food eaten
    have hsub : eaten ⊆ (scan_step a food eaten).2.2 := by
      unfold scan_step
      split
      · exact Finset.Subset.refl eaten
      · cases hi : first_edible_index a food
        · simp [hi]
        · simp only [hi]
          exact Finset.subset_insert _ _
    calc eaten ⊆ (scan_step a food eaten).2.2 := hsub
      _ ⊆ (interaction_scan rest (scan_step a food eaten).2.1
            (scan_step a food eaten).2.2).2.2 := ih _ _
      _ = (interaction_scan (a :: rest) food eaten).2.2 := by rw [h2]

/-- Helper: the scan preserves the length of the food list. -/
theorem scan_food_length :
    ∀ (agents : List Agent) (food : List FoodPellet) (eaten : Finset ℕ),
      (interaction_scan agents food eaten).2.1.length = food.length := by
  intro agents
  induction agents with
  | nil => intro food eaten; rfl
  | cons a rest ih =>
    intro food eaten
    have h2 := congrArg Prod.fst (interaction_scan_cons_snd a rest food eaten)
    rw [show (interaction_scan (a :: rest) food eaten).2.1
        = (interaction_scan rest (scan_step a food eaten).2.1
            (scan_step a food eaten).2.2).2.1 from h2]
    rw [ih]
    unfold scan_step
    split
    · rfl
    · cases hi : first_edible_index a food
      · simp [hi]
      · simp [hi, List.length_set]

/-- Helper: a food index never recorded as eaten keeps its original pellet
through the whole scan. -/
theorem scan_untouched :
    ∀ (agents : List Agent) (food : List FoodPellet) (eaten : Finset ℕ) (j : ℕ),
      j ∉ (interaction_scan agents food eaten).2.2 →
      (interaction_scan agents food eaten).2.1.getD j dummy_pellet
        = food.getD j dummy_pellet := by
  intro agents
  induction agents with
  | nil => intro food eaten j _; rfl
  | cons a rest ih =>
    intro food eaten j hj
    have h2 := interaction_scan_cons_snd a rest food eaten
    rw [show (interaction_scan (a :: rest) food eaten).2.2
        = (interaction_scan rest (scan_step a food eaten).2.1
            (scan_step a food eaten).2.2).2.2 from congrArg Prod.snd h2] at hj
    rw [show (interaction_scan (a :: rest) food eaten).2.1
        = (interaction_scan rest (scan_step a food eaten).2.1
            (scan_step a food eaten).2.2).2.1 from congrArg Prod.fst h2]
    rw [ih _ _ j hj]
    by_cases ha : a.alive = false
    · rw [show scan_step a food eaten = (a, food, eaten) from by simp [scan_step, ha]]
    · cases hi : first_edible_index a food with
      | none =>
        rw [show scan_step a food eaten = (a, food, eaten) from by
          simp [scan_step, ha, hi]]
      | some i =>
        rw [show scan_step a food eaten
            = ((a.eat (food.getD i dummy_pellet)).1,
                food.set i (a.eat (food.getD i dummy_pellet)).2,
                insert i eaten) from by simp [scan_step, ha, hi]] at hj ⊢
        have hne : i ≠ j := by
          intro he
          subst he
          exact hj (scan_eaten_mono rest _ _ (Finset.mem_insert_self i eaten))
        simp [List.getD_eq_getElem?_getD, List.getElem?_set_ne hne]

/-- Helper: inside the scan, an alive agent whose processing-time food list
has a first co-located edible pellet at index `i` ends with exactly that
pellet's value added to its energy, and `i` joins the eaten set. -/
theorem scan_agent_effect :
    ∀ (agents : List Agent) (food : List FoodPellet) (eaten : Finset ℕ) (k : ℕ),
      k < agents.length →
      (agents.getD k dummy_agent).alive = true →
      ∀ i, first_edible_index (agents.getD k dummy_agent)
          ((interaction_scan (agents.take k) food eaten).2.1) = some i →
        ((interaction_scan agents food eaten).1.getD k dummy_agent).traits.energy
          = (agents.getD k dummy_agent).traits.energy
            + (((interaction_scan (agents.take k) food eaten).2.1).getD
                i dummy_pellet).energy_value
        ∧ i ∈ (interaction_scan agents food eaten).2.2 := by
  intro agents
  induction agents with
  | nil =>
    intro food eaten k hk
    exact absurd hk (by simp)
  | cons a rest ih =>
    intro food eaten k hk halive i hfirst
    cases k with
    | zero =>
      rw [List.getD_cons_zero] at halive
      rw [List.take_zero] at hfirst
      have hfood : (interaction_scan ([] : List Agent) food eaten).2.1 = food := rfl
      rw [hfood, List.getD_cons_zero] at hfirst
      have hstep : scan_step a food eaten
          = ((a.eat (food.getD i dummy_pellet)).1,
              food.set i (a.eat (food.getD i dummy_pellet)).2,
              insert i eaten) := by
        simp [scan_step, halive, hfirst]
      constructor
      · rw [interaction_scan_cons_fst, hstep, List.getD_cons_zero,
          List.getD_cons_zero, List.take_zero, hfood]
        have hpos : 0 < (food.getD i dummy_pellet).energy_value :=
          (first_edible_index_spec a food i hfirst).2.1.2.2
        exact (eat_adds a _ hpos).1
      · rw [show (interaction_scan (a :: rest) food eaten).2.2
            = (interaction_scan rest (scan_step a food eaten).2.1
                (scan_step a food eaten).2.2).2.2 from
            congrArg Prod.snd (interaction_scan_cons_snd a rest food eaten)]
        rw [hstep]
        exact scan_eaten_mono rest _ _ (Finset.mem_insert_self i eaten)
    | succ j =>
      rw [List.getD_cons_succ] at halive
      have htake : (a :: rest).take (j + 1) = a :: rest.take j := rfl
      rw [htake] at hfirst
      rw [show (interaction_scan (a :: rest.take j) food eaten).2.1
          = (interaction_scan (rest.take j) (scan_step a food eaten).2.1
              (scan_step a food eaten).2.2).2.1 from
          congrArg Prod.fst (interaction_scan_cons_snd a (rest.take j) food eaten),
        List.getD_cons_succ] at hfirst
      have hrec := ih (scan_step a food eaten).2.1 (scan_step a food eaten).2.2 j
        (by simpa using hk) halive i hfirst
      constructor
      · rw [interaction_scan_cons_fst, List.getD_cons_succ, List.getD_cons_succ]
        rw [htake,
          show (interaction_scan (a :: rest.take j) food eaten).2.1
            = (interaction_scan (rest.take j) (scan_step a food eaten).2.1
                (scan_step a food eaten).2.2).2.1 from
            congrArg Prod.fst (interaction_scan_cons_snd a (rest.take j) food eaten)]
        exact hrec.1
      · rw [show (interaction_scan (a :: rest) food eaten).2.2
            = (interaction_scan rest (scan_step a food eaten).2.1
                (scan_step a food eaten).2.2).2.2 from
            congrArg Prod.snd (interaction_scan_cons_snd a rest food eaten)]
        exact hrec.2

/-- Helper: every recorded eaten index was either there at the start or is a
valid index of the food list. -/
theorem scan_eaten_bound :
    ∀ (agents : List Agent) (food : List FoodPellet) (eaten : Finset ℕ),
      ∀ i ∈ (interaction_scan agents food eaten).2.2, i ∈ eaten ∨ i < food.length := by
  intro agents
  induction agents with
  | nil =>
    intro food eaten i hi
    exact Or.inl hi
  | cons a rest ih =>
    intro food eaten i hi
    rw [show (interaction_scan (a :: rest) food eaten).2.2
        = (interaction_scan rest (scan_step a food eaten).2.1
            (scan_step a food eaten).2.2).2.2 from
        congrArg Prod.snd (interaction_scan_cons_snd a rest food eaten)] at hi
    by_cases ha : a.alive = false
    · rw [show scan_step a food eaten = (a, food, eaten) from by
        simp [scan_step, ha]] at hi
      exact ih food eaten i hi
    · cases hif : first_edible_index a food with
      | none =>
        rw [show scan_step a food eaten = (a, food, eaten) from by
          simp [scan_step, ha, hif]] at hi
        exact ih food eaten i hi
      | some i0 =>
        rw [show scan_step a food eaten
            = ((a.eat (food.getD i0 dummy_pellet)).1,
                food.set i0 (a.eat (food.getD i0 dummy_pellet)).2,
                insert i0 eaten) from by simp [scan_step, ha, hif]] at hi
        rcases ih _ _ i hi with hmem | hlen
        · rcases Finset.mem_insert.mp hmem with rfl | hmem2
          · exact Or.inr (first_edible_index_spec a food i hif).1
          · exact Or.inl hmem2
        · rw [List.length_set] at hlen
          exact Or.inr hlen

/-- Helper: excluding only indices below the starting offset removes
nothing. -/
theorem exclude_list_skip (L : List ℕ) :
    ∀ (fs : List FoodPellet) (k : ℕ), (∀ i ∈ L, i < k) → exclude_list L k fs = fs := by
  intro fs
  induction fs with
  | nil => intro k _; rfl
  | cons p rest ih =>
    intro k hk
    have hkL : k ∉ L := fun c => absurd (hk k c) (by omega)
    simp only [exclude_list]
    rw [if_neg hkL, ih (k + 1) (fun i hi => by have := hk i hi; omega)]

/-- Helper: excluding a maximal index is erasing that position first. -/
theorem exclude_list_cons_max :
    ∀ (fs : List FoodPellet) (L : List ℕ) (k m : ℕ),
      (∀ i ∈ L, i < m) → m < k + fs.length → k ≤ m →
      exclude_list (m :: L) k fs = exclude_list L k (fs.eraseIdx (m - k)) := by
  intro fs
  induction fs with
  | nil =>
    intro L k m hL hlen hkm
    rw [List.length_nil] at hlen
    exact absurd hkm (by omega)
  | cons p rest ih =>
    intro L k m hL hlen hkm
    rw [List.length_cons] at hlen
    by_cases hkm2 : m = k
    · subst hkm2
      rw [show exclude_list (m :: L) m (p :: rest)
          = exclude_list (m :: L) (m + 1) rest from by
        simp only [exclude_list]
        rw [if_pos (List.mem_cons_self m L)]]
      rw [exclude_list_skip (m :: L) rest (m + 1) (by
        intro i hi
        rcases List.mem_cons.mp hi with rfl | h
        · omega
        · have := hL i h
          omega)]
      rw [show m - m = 0 from by omega, List.eraseIdx_cons_zero]
      rw [exclude_list_skip L rest m hL]
    · have hmk : k < m := by omega
      have herase : (p :: rest).eraseIdx (m - k) = p :: rest.eraseIdx (m - (k + 1)) := by
        rw [show m - k = (m - (k + 1)) + 1 from by omega, List.eraseIdx_cons_succ]
      rw [herase]
      by_cases hkL : k ∈ L
      · rw [show exclude_list (m :: L) k (p :: rest)
            = exclude_list (m :: L) (k + 1) rest from by
          simp only [exclude_list]
          rw [if_pos (List.mem_cons_of_mem m hkL)]]
        rw [show exclude_list L k (p :: rest.eraseIdx (m - (k + 1)))
            = exclude_list L (k + 1) (rest.eraseIdx (m - (k + 1))) from by
          simp only [exclude_list]
          rw [if_pos hkL]]
        exact ih L (k + 1) m hL (by omega) (by omega)
      · have hkmL : k ∉ m :: L := by
          intro c
          rcases List.mem_cons.mp c with rfl | h
          · omega
          · exact hkL h
        rw [show exclude_list (m :: L) k (p :: rest)
            = p :: exclude_list (m :: L) (k + 1) rest from by
          simp only [exclude_list]
          rw [if_neg hkmL]]
        rw [show exclude_list L k (p :: rest.eraseIdx (m - (k + 1)))
            = p :: exclude_list L (k + 1) (rest.eraseIdx (m - (k + 1))) from by
          simp only [exclude_list]
          rw [if_neg hkL]]
        rw [ih L (k + 1) m hL (by omega) (by omega)]

/-- Helper: the descending-index `pop` fold of the removal phase equals the
reference exclusion. -/
theorem foldl_eraseIdx_desc :
    ∀ (L : List ℕ) (fs : List FoodPellet),
      List.Pairwise (· > ·) L → (∀ i ∈ L, i < fs.length) →
      L.foldl (fun fs2 i => if i < fs2.length then fs2.eraseIdx i else fs2) fs
        = exclude_list L 0 fs := by
  intro L
  induction L with
  | nil =>
    intro fs _ _
    rw [List.foldl_nil, exclude_list_skip [] fs 0 (by simp)]
  | cons m L2 ih =>
    intro fs hpw hb
    have hm : m < fs.length := hb m (List.mem_cons_self m L2)
    obtain ⟨hhead, hpw2⟩ := List.pairwise_cons.mp hpw
    rw [List.foldl_cons]
    rw [show (if m < fs.length then fs.eraseIdx m else fs) = fs.eraseIdx m from if_pos hm]
    rw [ih (fs.eraseIdx m) hpw2 (by
      intro i hi
      have h1 : i < m := hhead i hi
      have h2 : (fs.eraseIdx m).length = fs.length - 1 := by
        rw [List.length_eraseIdx, if_pos hm]
      omega)]
    have := exclude_list_cons_max fs L2 0 m (fun i hi => hhead i hi) (by omega) (by omega)
    rw [Nat.sub_zero] at this
    exact this.symm

/-- Helper: exclusion by a list of indices equals exclusion by a set with
the same membership. -/
theorem exclude_list_to_from :
    ∀ (fs : List FoodPellet) (L : List ℕ) (s : Finset ℕ) (k : ℕ),
      (∀ n, n ∈ L ↔ n ∈ s) → exclude_list L k fs = exclude_from s k fs := by
  intro fs
  induction fs with
  | nil => intro L s k _; rfl
  | cons p rest ih =>
    intro L s k h
    by_cases hk : k ∈ s
    · simp only [exclude_list, exclude_from]
      rw [if_pos ((h k).mpr hk), if_pos hk, ih L s (k + 1) h]
    · simp only [exclude_list, exclude_from]
      rw [if_neg (fun c => hk ((h k).mp c)), if_neg hk, ih L s (k + 1) h]

/-- Helper: `remove_eaten` (sorted-descending batched `pop`) removes exactly
the indices of the eaten set, each once, keeping everything else in order. -/
theorem remove_eaten_eq_exclude (fs : List FoodPellet) (s : Finset ℕ)
    (hb : ∀ i ∈ s, i < fs.length) :
    remove_eaten fs s = exclude_from s 0 fs := by
  unfold remove_eaten
  have hpw : List.Pairwise (· > ·) ((s.sort (· ≤ ·)).reverse) := by
    rw [List.pairwise_reverse]
    exact Finset.sort_sorted_lt s
  have hmem : ∀ i ∈ (s.sort (· ≤ ·)).reverse, i < fs.length := by
    intro i hi
    apply hb
    rw [List.mem_reverse] at hi
    exact (Finset.mem_sort _).mp hi
  rw [foldl_eraseIdx_desc _ fs hpw hmem]
  exact exclude_list_to_from fs _ s 0 (fun n => by
    rw [List.mem_reverse]
    exact Finset.mem_sort _)

/-- C6: in one pass of `_handle_agent_food_interaction`, every alive agent
that is co-located with at least one `energy_value > 0` pellet at its
processing point eats exactly the first such pellet in food-list index
order: its energy grows by exactly that pellet's value and that pellet's
index joins the eaten set; pellets never eaten keep their original state
through the scan; and the batched descending-index removal deletes exactly
the eaten indices, once each, leaving every other pellet active and in
order. -/
theorem C6_eating_pass (agents : List Agent) (food : List FoodPellet) :
    (∀ k, k < agents.length →
      (agents.getD k dummy_agent).alive = true →
      (∃ j, j < (scan_food_at agents food k).length
          ∧ edible_at (agents.getD k dummy_agent)
              ((scan_food_at agents food k).getD j dummy_pellet)) →
      ∃ i, first_edible_index (agents.getD k dummy_agent) (scan_food_at agents food k)
            = some i
        ∧ edible_at (agents.getD k dummy_agent)
            ((scan_food_at agents food k).getD i dummy_pellet)
        ∧ (∀ j, j < i → ¬ edible_at (agents.getD k dummy_agent)
            ((scan_food_at agents food k).getD j dummy_pellet))
        ∧ ((interaction_scan agents food ∅).1.getD k dummy_agent).traits.energy
            = (agents.getD k dummy_agent).traits.energy
              + ((scan_food_at agents food k).getD i dummy_pellet).energy_value
        ∧ i ∈ (interaction_scan agents food ∅).2.2)
    ∧ (∀ j, j ∉ (interaction_scan agents food ∅).2.2 →
        (interaction_scan agents food ∅).2.1.getD j dummy_pellet
          = food.getD j dummy_pellet)
    ∧ (handle_agent_food_interaction agents food).2
        = exclude_from (interaction_scan agents food ∅).2.2 0
            (interaction_scan agents food ∅).2.1 := by
  refine ⟨?_, ?_, ?_⟩
  · intro k hk halive hex
    cases hfi : first_edible_index (agents.getD k dummy_agent)
        (scan_food_at agents food k) with
    | none =>
      obtain ⟨j, hj, hje⟩ := hex
      exact absurd hje ((first_edible_index_none _ _).mp hfi j hj)
    | some i =>
      obtain ⟨hb, he, hpre⟩ := first_edible_index_spec _ _ i hfi
      have heff := scan_agent_effect agents food ∅ k hk halive i hfi
      exact ⟨i, rfl, he, hpre, heff.1, heff.2⟩
  · intro j hj
    exact scan_untouched agents food ∅ j hj
  · unfold handle_agent_food_interaction
    apply remove_eaten_eq_exclude
    intro i hi
    rcases scan_eaten_bound agents food ∅ i hi with h | h
    · exact absurd h (Finset.not_mem_empty i)
    · rw [scan_food_length]
      exact h

/-- C6, witness: an agent on a cell with two edible pellets eats exactly the
first one (energy +20, not +50); after the pass exactly that pellet is gone
and the second remains active. -/
theorem C6_eating_pass_witness :
    ((interaction_scan [c6_agent] [c6_pellet1, c6_pellet2] ∅).1.getD 0
        dummy_agent).traits.energy
      = c6_agent.traits.energy + c6_pellet1.energy_value
    ∧ (0 : ℕ) ∈ (interaction_scan [c6_agent] [c6_pellet1, c6_pellet2] ∅).2.2
    ∧ (handle_agent_food_interaction [c6_agent] [c6_pellet1, c6_pellet2]).2
        = [c6_pellet2] := by
  obtain ⟨i, hfi, -, -, henergy, hmem⟩ :=
    (C6_eating_pass [c6_agent] [c6_pellet1, c6_pellet2]).1 0 (by norm_num) rfl
      ⟨0, by decide, by decide⟩
  have hi0 : i = 0 := by
    have h0 : first_edible_index ([c6_agent].getD 0 dummy_agent)
        (scan_food_at [c6_agent] [c6_pellet1, c6_pellet2] 0) = some 0 := by decide
    rw [h0] at hfi
    exact (Option.some.inj hfi).symm
  subst hi0
  refine ⟨henergy, hmem, ?_⟩
  rw [(C6_eating_pass [c6_agent] [c6_pellet1, c6_pellet2]).2.2]
  decide

end FishEcoSim
